import Mathlib

/-!
Verification of the sentence-selection core of the supervised summarizer
(`generate_supervised_summary` in `app.py`, lines 708-767), together with the
candidate filter and the surrounding diagnostic handling.

Embedding conventions:
* Sentence feature vectors (rows of the TF-IDF matrix) are lists of rationals.
* The NLTK sentence tokenizer and the regex cleaner `clean_text` run strictly
  upstream of everything verified here, so the pipeline is embedded from the
  list of cleaned sentence strings onward: the input `cleanSentences` stands
  for `[clean_text(s) for s in nltk.sent_tokenize(text)]`.
* The module-level singletons `supervised_model` / `supervised_vectorizer` are
  represented by two booleans (loaded or not) plus a `ScoringOracle` record
  whose two fields embed `supervised_vectorizer.transform` and
  `supervised_model.predict_proba(...)[:, 1]`; either call may raise, which the
  oracle models by returning `Except.error` (caught by the `try/except` of the
  Python code, embedded as the `predictionError` outcome).
* The Python function returns its diagnostics in-band as one-element string
  lists; the embedding uses the structured `SummaryResult` type and
  `renderResult` maps each outcome back to the literal Python return value.
-/

/-- A sentence feature vector: one row of the TF-IDF matrix, over `ℚ`. -/
abbrev Vec := List ℚ

/-- Dot product of two vectors, componentwise over the common length.
In every run of the source all vectors come from one TF-IDF matrix and share
one dimension. -/
def dotProd : Vec → Vec → ℚ
  | x :: xs, y :: ys => x * y + dotProd xs ys
  | _, _ => 0

/-- Decides whether the cosine similarity `dot(a,b) / (norm(a) * norm(b))`
strictly exceeds a nonnegative threshold `t`, entirely inside `ℚ`:
for `t ≥ 0` the comparison holds iff the dot product is positive and its
square beats `t ^ 2 * |a|^2 * |b|^2`.  When either vector is zero the
similarity counts as `0`, hence below any nonnegative threshold.  The
equivalence with the real-valued formula is `cosineSimGT_iff`. -/
def cosineSimGT (a b : Vec) (t : ℚ) : Bool :=
  decide (0 < dotProd a b) && decide (t ^ 2 * dotProd a a * dotProd b b < dotProd a b ^ 2)

/-- Embeds the body of the redundancy check of lines 749-753: with a nonempty
accepted list, `np.max(cosine_similarity(current_vec, vstack(selected))) > t`
holds iff some accepted vector is more similar than `t`; with an empty list the
Python guard `if selected_vectors:` leaves `is_redundant = False`, matching
`List.any` on `[]`. -/
def isRedundant (selectedVectors : List Vec) (currentVec : Vec) (t : ℚ) : Bool :=
  selectedVectors.any (fun w => cosineSimGT currentVec w t)

/-- The mutable accumulator of the selection loop of lines 739-757:
`selected_indices` and `selected_vectors`. -/
structure SelState where
  selectedIndices : List Nat
  selectedVectors : List Vec
deriving DecidableEq

/-- One iteration of the `for idx in ranked_indices:` loop (lines 742-757).
The Python `break` once `len(selected_indices) >= num_sentences` is embedded
as leaving the state unchanged for the current and all later indices, which
yields the same final state. -/
def selectStep (features : List Vec) (numSentences : Nat) (t : ℚ)
    (st : SelState) (idx : Nat) : SelState :=
  if numSentences ≤ st.selectedIndices.length then st
  else if isRedundant st.selectedVectors (features.getD idx []) t then st
  else ⟨st.selectedIndices ++ [idx], st.selectedVectors ++ [features.getD idx []]⟩

/-- The greedy redundancy-aware selection loop of lines 739-757, folded over
the ranked index list starting from the empty state. -/
def selectGreedy (features : List Vec) (ranked : List Nat) (numSentences : Nat)
    (t : ℚ) : SelState :=
  ranked.foldl (selectStep features numSentences t) ⟨[], []⟩

/-- Embeds `np.argsort(scores)`: the indices `0 .. n-1` sorted so that their
scores are ascending.  Numpy sorts ascending with an unstable introsort whose
tie order is deterministic and input-order-preserving only up to its
16-element insertion-sort cutoff; the embedding uses the stable
`List.insertionSort`, which coincides with numpy on every batch a
tie-sensitive theorem below evaluates (at most three elements), and whose
tie-insensitive properties — length, being a permutation of the index range,
descending sortedness after the reversal — hold for any correct sort. -/
def argsortAsc (scores : List ℚ) : List Nat :=
  List.insertionSort (fun i j => scores.getD i 0 ≤ scores.getD j 0)
    (List.range scores.length)

/-- Embeds line 736, `ranked_indices = np.argsort(scores)[::-1]`: the
ascending argsort, reversed. -/
def rankedIndices (scores : List ℚ) : List Nat :=
  (argsortAsc scores).reverse

/-- The external scoring capability: `supervised_vectorizer.transform` and
`supervised_model.predict_proba(features)[:, 1]`.  An exception raised by
either call is modelled as an `Except.error` carrying the exception text. -/
structure ScoringOracle where
  transform : List String → Except String (List Vec)
  predictProba : List Vec → Except String (List ℚ)

/-- The candidate filter of lines 720-723: keep a cleaned sentence iff its
length exceeds 30 characters.  The source has no alphabetic-content test. -/
def validFilter (cleanSentences : List String) : List String :=
  cleanSentences.filter (fun s => 30 < s.length)

/-- Outcome of `generate_supervised_summary`.  The three diagnostic
constructors correspond to the three early returns of the Python function;
`renderResult` recovers the literal Python return values. -/
inductive SummaryResult where
  | modelNotLoaded : SummaryResult
  | noValidText : SummaryResult
  | predictionError : SummaryResult
  | summary : List String → SummaryResult
deriving DecidableEq

/-- The literal `List[str]` value the Python function returns for each
outcome. -/
def renderResult : SummaryResult → List String
  | SummaryResult.modelNotLoaded => ["Error: Model not loaded. Check server logs."]
  | SummaryResult.noValidText => ["No valid text found to summarize."]
  | SummaryResult.predictionError => ["Error during model prediction."]
  | SummaryResult.summary l => l

/-- The sentences of a summary outcome; a diagnostic outcome carries none. -/
def summarySentences : SummaryResult → List String
  | SummaryResult.summary l => l
  | _ => []

/-- Embedding of `generate_supervised_summary` (lines 708-767) from the
cleaned sentence list onward: the model/vectorizer presence check of line 712,
the length filter of lines 720-723, the empty-candidate return of lines
725-726, vectorization and scoring through the oracle (their exceptions and
any later failure inside the `try` block yield the line 765-767 diagnostic),
the descending argsort of line 736, the greedy redundancy-checked selection of
lines 739-757 with the hardcoded threshold `0.70`, and the final re-sort by
original position of lines 759-761. -/
def generateSupervisedSummary (modelLoaded vectorizerLoaded : Bool)
    (oracle : ScoringOracle) (cleanSentences : List String)
    (numSentences : Nat) : SummaryResult :=
  if !modelLoaded || !vectorizerLoaded then SummaryResult.modelNotLoaded
  else
    let validSentences := validFilter cleanSentences
    if validSentences = [] then SummaryResult.noValidText
    else
      match oracle.transform validSentences with
      | Except.error _ => SummaryResult.predictionError
      | Except.ok features =>
        match oracle.predictProba features with
        | Except.error _ => SummaryResult.predictionError
        | Except.ok scores =>
          let st := selectGreedy features (rankedIndices scores) numSentences (7 / 10)
          let finalIndices := List.insertionSort (fun i j => i ≤ j) st.selectedIndices
          SummaryResult.summary (finalIndices.map (fun i => validSentences.getD i (String.mk [])))

/-! ### Basic facts about the dot product and the similarity test -/

theorem dotProd_comm : ∀ a b : Vec, dotProd a b = dotProd b a
  | [], [] => rfl
  | [], _ :: _ => rfl
  | _ :: _, [] => rfl
  | x :: xs, y :: ys => by
    show x * y + dotProd xs ys = y * x + dotProd ys xs
    rw [mul_comm, dotProd_comm xs ys]

theorem dotProd_self_nonneg : ∀ a : Vec, 0 ≤ dotProd a a
  | [] => le_refl 0
  | x :: xs => by
    show 0 ≤ x * x + dotProd xs xs
    have h1 : 0 ≤ x * x := mul_self_nonneg x
    have h2 := dotProd_self_nonneg xs
    linarith

theorem dotProd_eq_zero_of_self (a : Vec) : ∀ b : Vec, dotProd a a = 0 → dotProd a b = 0 := by
  induction a with
  | nil => intro b _; cases b <;> rfl
  | cons x xs ih =>
    intro b h
    cases b with
    | nil => rfl
    | cons y ys =>
      have hx : x * x + dotProd xs xs = 0 := h
      have h1 : 0 ≤ x * x := mul_self_nonneg x
      have h2 := dotProd_self_nonneg xs
      have hx0 : x = 0 := by
        have : x * x = 0 := by linarith
        exact mul_self_eq_zero.mp this
      have hxs : dotProd xs xs = 0 := by linarith
      show x * y + dotProd xs ys = 0
      rw [hx0, ih ys hxs]
      ring

/-- The similarity test is symmetric in its two vectors, because the dot
product is. -/
theorem cosineSimGT_comm (a b : Vec) (t : ℚ) : cosineSimGT a b t = cosineSimGT b a t := by
  unfold cosineSimGT
  rw [dotProd_comm a b, mul_right_comm (t ^ 2) (dotProd a a) (dotProd b b)]

/-- Faithfulness of the rational similarity test: for a nonnegative threshold
it decides exactly whether the real-valued cosine similarity
`dot(a,b) / (sqrt(dot(a,a)) * sqrt(dot(b,b)))` strictly exceeds the
threshold.  A zero vector makes the denominator zero, and division by zero
yields `0` in both the convention of the source and the real field. -/
theorem cosineSimGT_iff (a b : Vec) (t : ℚ) (ht : 0 ≤ t) :
    cosineSimGT a b t = true ↔
      (t : ℝ) < ((dotProd a b : ℚ) : ℝ) /
        (Real.sqrt ((dotProd a a : ℚ) : ℝ) * Real.sqrt ((dotProd b b : ℚ) : ℝ)) := by
  have hA : (0 : ℝ) ≤ ((dotProd a a : ℚ) : ℝ) := by exact_mod_cast dotProd_self_nonneg a
  have hB : (0 : ℝ) ≤ ((dotProd b b : ℚ) : ℝ) := by exact_mod_cast dotProd_self_nonneg b
  have htR : (0 : ℝ) ≤ (t : ℝ) := by exact_mod_cast ht
  have hgt : cosineSimGT a b t = true ↔
      0 < dotProd a b ∧ t ^ 2 * dotProd a a * dotProd b b < dotProd a b ^ 2 := by
    simp [cosineSimGT]
  by_cases hA0 : dotProd a a = 0
  · have hab : dotProd a b = 0 := dotProd_eq_zero_of_self a b hA0
    rw [hgt, hab, hA0]
    simp [not_lt.mpr htR]
  · by_cases hB0 : dotProd b b = 0
    · have hab : dotProd a b = 0 := by
        rw [dotProd_comm]
        exact dotProd_eq_zero_of_self b a hB0
      rw [hgt, hab, hB0]
      simp [not_lt.mpr htR]
    · have hApos : (0 : ℝ) < ((dotProd a a : ℚ) : ℝ) :=
        lt_of_le_of_ne hA (by exact_mod_cast Ne.symm hA0)
      have hBpos : (0 : ℝ) < ((dotProd b b : ℚ) : ℝ) :=
        lt_of_le_of_ne hB (by exact_mod_cast Ne.symm hB0)
      have hsA : 0 < Real.sqrt ((dotProd a a : ℚ) : ℝ) := Real.sqrt_pos.mpr hApos
      have hsB : 0 < Real.sqrt ((dotProd b b : ℚ) : ℝ) := Real.sqrt_pos.mpr hBpos
      have hden : 0 < Real.sqrt ((dotProd a a : ℚ) : ℝ) * Real.sqrt ((dotProd b b : ℚ) : ℝ) :=
        mul_pos hsA hsB
      rw [hgt, lt_div_iff₀ hden]
      set u : ℝ := (t : ℝ) * (Real.sqrt ((dotProd a a : ℚ) : ℝ) * Real.sqrt ((dotProd b b : ℚ) : ℝ)) with hu
      have hu0 : 0 ≤ u := mul_nonneg htR (le_of_lt hden)
      have hu2 : u ^ 2 = (t : ℝ) ^ 2 * ((dotProd a a : ℚ) : ℝ) * ((dotProd b b : ℚ) : ℝ) := by
        rw [hu, mul_pow, mul_pow, Real.sq_sqrt hA, Real.sq_sqrt hB]
        ring
    
      constructor
      · rintro ⟨hpos, hsq⟩
        have hposR : (0 : ℝ) < ((dotProd a b : ℚ) : ℝ) := by exact_mod_cast hpos
        have hsqR : u ^ 2 < ((dotProd a b : ℚ) : ℝ) ^ 2 := by
          rw [hu2]
          exact_mod_cast hsq
        exact lt_of_pow_lt_pow_left₀ 2 (le_of_lt hposR) hsqR
      · intro h
        have hposR : (0 : ℝ) < ((dotProd a b : ℚ) : ℝ) := lt_of_le_of_lt hu0 h
        have hsqR : u ^ 2 < ((dotProd a b : ℚ) : ℝ) ^ 2 := by
          have := pow_lt_pow_left₀ h hu0 (two_ne_zero)
          exact this
        constructor
        · exact_mod_cast hposR
        · rw [hu2] at hsqR
          exact_mod_cast hsqR

/-- The complementary reading of `cosineSimGT_iff`: the test is `false`
exactly when the real cosine similarity is at most the threshold. -/
theorem cosineSimGT_eq_false_iff (a b : Vec) (t : ℚ) (ht : 0 ≤ t) :
    cosineSimGT a b t = false ↔
      ((dotProd a b : ℚ) : ℝ) /
          (Real.sqrt ((dotProd a a : ℚ) : ℝ) * Real.sqrt ((dotProd b b : ℚ) : ℝ)) ≤ (t : ℝ) := by
  rw [← not_lt, ← cosineSimGT_iff a b t ht]
  cases h : cosineSimGT a b t <;> simp [h]

/-- The redundancy test fires exactly when some previously accepted vector has
real cosine similarity strictly above the threshold. -/
theorem isRedundant_iff (vs : List Vec) (v : Vec) (t : ℚ) (ht : 0 ≤ t) :
    isRedundant vs v t = true ↔
      ∃ w ∈ vs, (t : ℝ) < ((dotProd v w : ℚ) : ℝ) /
        (Real.sqrt ((dotProd v v : ℚ) : ℝ) * Real.sqrt ((dotProd w w : ℚ) : ℝ)) := by
  unfold isRedundant
  rw [List.any_eq_true]
  constructor
  · rintro ⟨w, hw, hgt⟩
    exact ⟨w, hw, (cosineSimGT_iff v w t ht).mp hgt⟩
  · rintro ⟨w, hw, hgt⟩
    exact ⟨w, hw, (cosineSimGT_iff v w t ht).mpr hgt⟩

/-! ### Structure of the greedy selection loop -/

theorem selectStep_cases (features : List Vec) (k : Nat) (t : ℚ) (st : SelState) (i : Nat) :
    (selectStep features k t st i = st ∧
      ¬(st.selectedIndices.length < k ∧
        isRedundant st.selectedVectors (features.getD i []) t = false)) ∨
    (selectStep features k t st i =
        ⟨st.selectedIndices ++ [i], st.selectedVectors ++ [features.getD i []]⟩ ∧
      st.selectedIndices.length < k ∧
      isRedundant st.selectedVectors (features.getD i []) t = false) := by
  unfold selectStep
  split_ifs with h1 h2
  · exact Or.inl ⟨rfl, fun hc => absurd hc.1 (not_lt.mpr h1)⟩
  · refine Or.inl ⟨rfl, fun hc => ?_⟩
    rw [hc.2] at h2
    exact Bool.noConfusion h2
  · refine Or.inr ⟨rfl, not_le.mp h1, ?_⟩
    cases hcase : isRedundant st.selectedVectors (features.getD i []) t
    · rfl
    · exact absurd hcase h2

theorem length_selectStep_le (features : List Vec) (k : Nat) (t : ℚ) (st : SelState) (i : Nat)
    (h : st.selectedIndices.length ≤ k) :
    (selectStep features k t st i).selectedIndices.length ≤ k := by
  rcases selectStep_cases features k t st i with ⟨he, _⟩ | ⟨he, hlt, _⟩
  · rw [he]; exact h
  · rw [he]
    simp only [List.length_append, List.length_cons, List.length_nil]
    omega

theorem length_foldl_selectStep_le (features : List Vec) (k : Nat) (t : ℚ) :
    ∀ (l : List Nat) (st : SelState), st.selectedIndices.length ≤ k →
      (l.foldl (selectStep features k t) st).selectedIndices.length ≤ k
  | [], _, h => h
  | i :: l, st, h =>
    length_foldl_selectStep_le features k t l (selectStep features k t st i)
      (length_selectStep_le features k t st i h)

theorem length_foldl_selectStep_le_add (features : List Vec) (k : Nat) (t : ℚ) :
    ∀ (l : List Nat) (st : SelState),
      (l.foldl (selectStep features k t) st).selectedIndices.length ≤
        st.selectedIndices.length + l.length
  | [], st => le_of_eq rfl
  | i :: l, st => by
    have hrec := length_foldl_selectStep_le_add features k t l (selectStep features k t st i)
    have hstep : (selectStep features k t st i).selectedIndices.length ≤
        st.selectedIndices.length + 1 := by
      rcases selectStep_cases features k t st i with ⟨he, _⟩ | ⟨he, _, _⟩
      · rw [he]; omega
      · rw [he]
        simp only [List.length_append, List.length_cons, List.length_nil]
        omega
    rw [List.foldl_cons]
    simp only [List.length_cons]
    omega

theorem mem_selectStep_iff (features : List Vec) (k : Nat) (t : ℚ) (st : SelState) (i idx : Nat) :
    idx ∈ (selectStep features k t st i).selectedIndices ↔
      idx ∈ st.selectedIndices ∨
        (i = idx ∧ st.selectedIndices.length < k ∧
          isRedundant st.selectedVectors (features.getD i []) t = false) := by
  rcases selectStep_cases features k t st i with ⟨he, hnc⟩ | ⟨he, hlt, hred⟩
  · rw [he]
    constructor
    · exact Or.inl
    · rintro (h | ⟨_, hc1, hc2⟩)
      · exact h
      · exact absurd ⟨hc1, hc2⟩ hnc
  · rw [he]
    simp only [List.mem_append, List.mem_singleton, hlt, hred, and_true, true_and]
    constructor
    · rintro (h | h)
      · exact Or.inl h
      · exact Or.inr h.symm
    · rintro (h | h)
      · exact Or.inl h
      · exact Or.inr h.symm

theorem cons_decomp_iff {α : Type} (j idx : α) (l : List α) (P : List α → Prop) :
    (∃ p s, j :: l = p ++ idx :: s ∧ P p) ↔
      ((j = idx ∧ P []) ∨ ∃ p s, l = p ++ idx :: s ∧ P (j :: p)) := by
  constructor
  · rintro ⟨p, s, heq, hP⟩
    cases p with
    | nil =>
      rw [List.nil_append] at heq
      injection heq with h1 h2
      exact Or.inl ⟨h1, hP⟩
    | cons q p =>
      rw [List.cons_append] at heq
      injection heq with h1 h2
      subst h1
      exact Or.inr ⟨p, s, h2, hP⟩
  · rintro (⟨h1, hP⟩ | ⟨p, s, heq, hP⟩)
    · subst h1
      exact ⟨[], l, rfl, hP⟩
    · refine ⟨j :: p, s, ?_, hP⟩
      rw [List.cons_append, heq]

theorem mem_foldl_selectStep (features : List Vec) (k : Nat) (t : ℚ) :
    ∀ (l : List Nat) (st : SelState) (idx : Nat),
      idx ∈ (l.foldl (selectStep features k t) st).selectedIndices ↔
        idx ∈ st.selectedIndices ∨
          ∃ p s, l = p ++ idx :: s ∧
            (p.foldl (selectStep features k t) st).selectedIndices.length < k ∧
            isRedundant ((p.foldl (selectStep features k t) st).selectedVectors)
              (features.getD idx []) t = false
  | [], st, idx => by
    simp only [List.foldl_nil]
    constructor
    · exact Or.inl
    · rintro (h | ⟨p, s, heq, _⟩)
      · exact h
      · exact absurd heq.symm (List.append_ne_nil_of_right_ne_nil p (List.cons_ne_nil idx s))
  | j :: l, st, idx => by
    rw [List.foldl_cons, mem_foldl_selectStep features k t l (selectStep features k t st j) idx,
      mem_selectStep_iff features k t st j idx]
    constructor
    · rintro ((h | ⟨hj, hlt, hred⟩) | ⟨p, s, heq, hlen, hq⟩)
      · exact Or.inl h
      · subst hj
        exact Or.inr ⟨[], l, rfl, hlt, hred⟩
      · exact Or.inr ⟨j :: p, s, by rw [List.cons_append, heq], hlen, hq⟩
    · rintro (h | ⟨p, s, heq, hlen, hq⟩)
      · exact Or.inl (Or.inl h)
      · cases p with
        | nil =>
          rw [List.nil_append] at heq
          injection heq with h1 h2
          subst h1
          subst h2
          exact Or.inl (Or.inr ⟨rfl, hlen, hq⟩)
        | cons q p =>
          rw [List.cons_append] at heq
          injection heq with h1 h2
          subst h1
          exact Or.inr ⟨p, s, h2, hlen, hq⟩

theorem mem_foldl_selectStep_of_mem (features : List Vec) (k : Nat) (t : ℚ) :
    ∀ (l : List Nat) (st : SelState) (idx : Nat), idx ∈ st.selectedIndices →
      idx ∈ (l.foldl (selectStep features k t) st).selectedIndices
  | [], _, _, h => h
  | j :: l, st, idx, h => by
    rw [List.foldl_cons]
    apply mem_foldl_selectStep_of_mem features k t l
    rcases selectStep_cases features k t st j with ⟨he, _⟩ | ⟨he, _, _⟩
    · rw [he]; exact h
    · rw [he]; exact List.mem_append_left _ h

theorem pairwise_selectStep (features : List Vec) (k : Nat) (t : ℚ) (st : SelState) (i : Nat)
    (h : List.Pairwise (fun u v => cosineSimGT u v t = false) st.selectedVectors) :
    List.Pairwise (fun u v => cosineSimGT u v t = false)
      ((selectStep features k t st i).selectedVectors) := by
  rcases selectStep_cases features k t st i with ⟨he, _⟩ | ⟨he, _, hred⟩
  · rw [he]; exact h
  · rw [he]
    rw [List.pairwise_append]
    refine ⟨h, by simp, ?_⟩
    intro u hu b hb
    rw [List.mem_singleton] at hb
    subst hb
    have hall := List.any_eq_false.mp hred u hu
    rw [cosineSimGT_comm]
    cases hcase : cosineSimGT (features.getD i []) u t
    · rfl
    · exact absurd hcase hall

theorem pairwise_foldl_selectStep (features : List Vec) (k : Nat) (t : ℚ) :
    ∀ (l : List Nat) (st : SelState),
      List.Pairwise (fun u v => cosineSimGT u v t = false) st.selectedVectors →
      List.Pairwise (fun u v => cosineSimGT u v t = false)
        ((l.foldl (selectStep features k t) st).selectedVectors)
  | [], _, h => h
  | j :: l, st, h =>
    pairwise_foldl_selectStep features k t l (selectStep features k t st j)
      (pairwise_selectStep features k t st j h)

/-! ### Run equations for the pipeline -/

theorem generate_not_loaded (modelLoaded vectorizerLoaded : Bool) (oracle : ScoringOracle)
    (cs : List String) (k : Nat) (hm : (modelLoaded && vectorizerLoaded) = false) :
    generateSupervisedSummary modelLoaded vectorizerLoaded oracle cs k =
      SummaryResult.modelNotLoaded := by
  unfold generateSupervisedSummary
  rw [if_pos]
  cases modelLoaded <;> cases vectorizerLoaded <;> simp_all

theorem generate_no_valid (oracle : ScoringOracle) (cs : List String) (k : Nat)
    (hval : validFilter cs = []) :
    generateSupervisedSummary true true oracle cs k = SummaryResult.noValidText := by
  unfold generateSupervisedSummary
  rw [if_neg (by simp), if_pos hval]

theorem generate_transform_error (oracle : ScoringOracle) (cs : List String) (k : Nat) (e : String)
    (hval : validFilter cs ≠ []) (htr : oracle.transform (validFilter cs) = Except.error e) :
    generateSupervisedSummary true true oracle cs k = SummaryResult.predictionError := by
  unfold generateSupervisedSummary
  rw [if_neg (by simp), if_neg hval, htr]

theorem generate_predict_error (oracle : ScoringOracle) (cs : List String) (k : Nat)
    (feats : List Vec) (e : String)
    (hval : validFilter cs ≠ []) (htr : oracle.transform (validFilter cs) = Except.ok feats)
    (hpr : oracle.predictProba feats = Except.error e) :
    generateSupervisedSummary true true oracle cs k = SummaryResult.predictionError := by
  unfold generateSupervisedSummary
  rw [if_neg (by simp), if_neg hval, htr]
  dsimp only
  rw [hpr]

/-- When both artifacts are loaded, at least one sentence passes the filter
and both oracle calls succeed, the run produces exactly the summary built by
ranking, greedy selection with threshold `0.70`, re-sorting by original
position, and mapping positions back to sentences. -/
theorem generate_run_eq (oracle : ScoringOracle) (cs : List String) (k : Nat)
    (feats : List Vec) (scores : List ℚ)
    (hval : validFilter cs ≠ [])
    (htr : oracle.transform (validFilter cs) = Except.ok feats)
    (hpr : oracle.predictProba feats = Except.ok scores) :
    generateSupervisedSummary true true oracle cs k =
      SummaryResult.summary
        ((List.insertionSort (fun i j => i ≤ j)
            (selectGreedy feats (rankedIndices scores) k (7 / 10)).selectedIndices).map
          (fun i => (validFilter cs).getD i (String.mk []))) := by
  unfold generateSupervisedSummary
  rw [if_neg (by simp), if_neg hval, htr]
  dsimp only
  rw [hpr]

theorem length_rankedIndices (scores : List ℚ) :
    (rankedIndices scores).length = scores.length := by
  unfold rankedIndices argsortAsc
  rw [List.length_reverse, List.length_insertionSort, List.length_range]

/-! ### Concrete fixtures for witnesses and counterexamples -/

/-- An oracle returning fixed vectors and scores, for concrete runs. -/
def constOracle (feats : List Vec) (scores : List ℚ) : ScoringOracle :=
  ⟨fun _ => Except.ok feats, fun _ => Except.ok scores⟩

/-- An oracle whose vectorization step raises. -/
def failTransformOracle : ScoringOracle :=
  ⟨fun _ => Except.error ("sparse matrix dimension mismatch"), fun _ => Except.ok []⟩

/-- An oracle whose prediction step raises. -/
def failPredictOracle (feats : List Vec) : ScoringOracle :=
  ⟨fun _ => Except.ok feats, fun _ => Except.error ("model input shape mismatch")⟩

def sentA : String := String.mk (List.replicate 31 'a')

def sentB : String := String.mk (List.replicate 32 'b')

def sentC : String := String.mk (List.replicate 33 'c')

/-- A numeric-only fragment longer than 30 characters. -/
def numFragment : String := String.mk (List.replicate 31 '1')

/-- A sentence too short to pass the candidate filter. -/
def shortSent : String := String.mk (List.replicate 5 'x')

/-! ### Further helper lemmas -/

theorem foldl_selectStep_zero (features : List Vec) (t : ℚ) :
    ∀ (l : List Nat) (st : SelState), l.foldl (selectStep features 0 t) st = st
  | [], _ => rfl
  | j :: l, st => by
    rw [List.foldl_cons]
    have hstep : selectStep features 0 t st j = st := by
      unfold selectStep
      rw [if_pos (Nat.zero_le _)]
    rw [hstep]
    exact foldl_selectStep_zero features t l st

/-- The ranked index list is sorted by score descending. -/
theorem rankedIndices_sorted_desc (scores : List ℚ) :
    List.Sorted (fun i j => scores.getD j 0 ≤ scores.getD i 0) (rankedIndices scores) := by
  unfold rankedIndices argsortAsc
  refine List.pairwise_reverse.mpr ?_
  haveI h1 : IsTotal Nat (fun i j => scores.getD i 0 ≤ scores.getD j 0) :=
    ⟨fun a b => le_total (scores.getD a 0) (scores.getD b 0)⟩
  haveI h2 : IsTrans Nat (fun i j => scores.getD i 0 ≤ scores.getD j 0) :=
    ⟨fun a b c hab hbc => le_trans hab hbc⟩
  exact List.sorted_insertionSort (fun i j => scores.getD i 0 ≤ scores.getD j 0)
    (List.range scores.length)

theorem foldl_min_le_init : ∀ (l : List ℚ) (a : ℚ), l.foldl min a ≤ a
  | [], a => le_refl a
  | x :: l, a => le_trans (foldl_min_le_init l (min a x)) (min_le_left a x)

theorem foldl_min_le_mem : ∀ (l : List ℚ) (a x : ℚ), x ∈ l → l.foldl min a ≤ x
  | [], _, x, h => absurd h (List.not_mem_nil x)
  | y :: l, a, x, h => by
    rw [List.mem_cons] at h
    rcases h with h | h
    · subst h
      exact le_trans (foldl_min_le_init l (min a x)) (min_le_right a x)
    · exact foldl_min_le_mem l (min a y) x h

theorem init_le_foldl_max : ∀ (l : List ℚ) (a : ℚ), a ≤ l.foldl max a
  | [], a => le_refl a
  | x :: l, a => le_trans (le_max_left a x) (init_le_foldl_max l (max a x))

theorem mem_le_foldl_max : ∀ (l : List ℚ) (a x : ℚ), x ∈ l → x ≤ l.foldl max a
  | [], _, x, h => absurd h (List.not_mem_nil x)
  | y :: l, a, x, h => by
    rw [List.mem_cons] at h
    rcases h with h | h
    · subst h
      exact le_trans (le_max_right a x) (init_le_foldl_max l (max a x))
    · exact mem_le_foldl_max l (max a y) x h

theorem le_foldl_min : ∀ (l : List ℚ) (a c : ℚ), c ≤ a → (∀ x ∈ l, c ≤ x) → c ≤ l.foldl min a
  | [], _, _, ha, _ => ha
  | x :: l, a, c, ha, h =>
    le_foldl_min l (min a x) c (le_min ha (h x (List.mem_cons_self x l)))
      (fun y hy => h y (List.mem_cons_of_mem x hy))

theorem foldl_max_le : ∀ (l : List ℚ) (a c : ℚ), a ≤ c → (∀ x ∈ l, x ≤ c) → l.foldl max a ≤ c
  | [], _, _, ha, _ => ha
  | x :: l, a, c, ha, h =>
    foldl_max_le l (max a x) c (max_le ha (h x (List.mem_cons_self x l)))
      (fun y hy => h y (List.mem_cons_of_mem x hy))

/-! ### Definitions modelled from the spec for comparison -/

/-- Modelled from the spec: the Candidate Filter predicate as the
specification states it (section 4.2) — keep a sentence iff its cleaned
length exceeds 40 characters and it contains at least one alphabetic
character.  Kept for comparison with `validFilter`, the filter the source
actually implements. -/
def specFilterKeep (s : String) : Bool :=
  decide (40 < s.length) && s.data.any Char.isAlpha

/-- Modelled from the spec: the decision-function rescaling branch of the
Scoring Oracle Adapter (section 4.3, shape b).  The source file under src/
scores with `predict_proba` only and contains no rescaling; the spec
describes the variant that linearly rescales unbounded scores to [0,1] by
`(x - min) / (max - min)` over the batch, and defines every rescaled score
as `1.0` when all scores in the batch are equal, avoiding the division by
zero. -/
def rescaleScores (scores : List ℚ) : List ℚ :=
  if scores.foldl max (scores.headD 0) = scores.foldl min (scores.headD 0) then
    scores.map (fun _ => 1)
  else
    scores.map (fun x =>
      (x - scores.foldl min (scores.headD 0)) /
        (scores.foldl max (scores.headD 0) - scores.foldl min (scores.headD 0)))

/-- C4 counterexample: the numeric-only fragment of 31 characters is kept by
the filter of the source although its length does not exceed 40 and it
contains no alphabetic character, so the claimed filter predicate disagrees
with the implemented one. -/
theorem filter_threshold_counterexample :
    validFilter [numFragment] = [numFragment] ∧ specFilterKeep numFragment = false := by
  constructor
  · decide
  · decide

/-- C4 amended: the filter keeps a sentence iff its cleaned length exceeds
30 characters, with no alphabetic-content requirement, and it preserves the
relative order of the kept sentences. -/
theorem filter_keeps_iff (l : List String) (s : String) :
    (s ∈ validFilter l ↔ s ∈ l ∧ 30 < s.length) ∧ (validFilter l).Sublist l := by
  constructor
  · rw [validFilter, List.mem_filter]
    simp
  · exact List.filter_sublist l

/-- C9: with the artifacts loaded, a run in which no sentence passes the
filter returns the no-valid-content diagnostic, and a run with requested
size zero carries no summary sentences; neither raises. -/
theorem empty_input_empty_summary (oracle : ScoringOracle) (cs : List String) (k : Nat) :
    (validFilter cs = [] →
      generateSupervisedSummary true true oracle cs k = SummaryResult.noValidText) ∧
    summarySentences (generateSupervisedSummary true true oracle cs 0) = [] := by
  constructor
  · exact generate_no_valid oracle cs k
  · by_cases hval : validFilter cs = []
    · rw [generate_no_valid oracle cs 0 hval]
      rfl
    · cases htr : oracle.transform (validFilter cs) with
      | error e =>
        rw [generate_transform_error oracle cs 0 e hval htr]
        rfl
      | ok feats =>
        cases hpr : oracle.predictProba feats with
        | error e =>
          rw [generate_predict_error oracle cs 0 feats e hval htr hpr]
          rfl
        | ok scores =>
          rw [generate_run_eq oracle cs 0 feats scores hval htr hpr]
          have hsel : selectGreedy feats (rankedIndices scores) 0 (7 / 10) =
              SelState.mk [] [] :=
            foldl_selectStep_zero feats (7 / 10) (rankedIndices scores) (SelState.mk [] [])
          rw [hsel]
          rfl

/-- C9 witness: a concrete short-only document yields the no-valid-content
diagnostic, and a concrete request of size zero yields no summary
sentences. -/
theorem empty_input_empty_summary_witness :
    generateSupervisedSummary true true failTransformOracle [shortSent] 7 =
      SummaryResult.noValidText ∧
    summarySentences (generateSupervisedSummary true true failTransformOracle [sentA] 0) = [] :=
  ⟨(empty_input_empty_summary failTransformOracle [shortSent] 7).1 (by decide),
   (empty_input_empty_summary failTransformOracle [sentA] 0).2⟩

/-- C8: a missing model or vectorizer yields the literal not-loaded message,
and an exception in either oracle call yields the literal prediction-error
message; in each case the result is the human-readable diagnostic and the
raised error value is discarded rather than propagated. -/
theorem scoring_failure_yields_diagnostic (modelLoaded vectorizerLoaded : Bool)
    (oracle : ScoringOracle) (cs : List String) (k : Nat) :
    ((modelLoaded && vectorizerLoaded) = false →
      renderResult (generateSupervisedSummary modelLoaded vectorizerLoaded oracle cs k) =
        ["Error: Model not loaded. Check server logs."]) ∧
    (validFilter cs ≠ [] →
      ∀ e, oracle.transform (validFilter cs) = Except.error e →
        renderResult (generateSupervisedSummary true true oracle cs k) =
          ["Error during model prediction."]) ∧
    (validFilter cs ≠ [] →
      ∀ feats e, oracle.transform (validFilter cs) = Except.ok feats →
        oracle.predictProba feats = Except.error e →
          renderResult (generateSupervisedSummary true true oracle cs k) =
            ["Error during model prediction."]) := by
  refine ⟨fun hm => ?_, fun hval e htr => ?_, fun hval feats e htr hpr => ?_⟩
  · rw [generate_not_loaded modelLoaded vectorizerLoaded oracle cs k hm]
    rfl
  · rw [generate_transform_error oracle cs k e hval htr]
    rfl
  · rw [generate_predict_error oracle cs k feats e hval htr hpr]
    rfl

/-- C8 witness: concrete runs with a missing model, a raising vectorizer and
a raising classifier each produce the corresponding literal diagnostic. -/
theorem scoring_failure_yields_diagnostic_witness :
    renderResult (generateSupervisedSummary false true failTransformOracle [sentA] 3) =
      ["Error: Model not loaded. Check server logs."] ∧
    renderResult (generateSupervisedSummary true true failTransformOracle [sentA] 3) =
      ["Error during model prediction."] ∧
    renderResult (generateSupervisedSummary true true (failPredictOracle [[1]]) [sentA] 3) =
      ["Error during model prediction."] :=
  ⟨(scoring_failure_yields_diagnostic false true failTransformOracle [sentA] 3).1 rfl,
   (scoring_failure_yields_diagnostic true true failTransformOracle [sentA] 3).2.1
     (by decide) _ rfl,
   (scoring_failure_yields_diagnostic true true (failPredictOracle [[1]]) [sentA] 3).2.2
     (by decide) [[1]] _ rfl rfl⟩

/-- C7: the spec-modelled min-max rescaling maps every score into [0,1], and
on an all-equal batch it maps every score to exactly 1; the function is total
over the rationals, so no undefined value and no division by zero can
occur. -/
theorem rescale_bounds_and_equal_case (scores : List ℚ) :
    (∀ y ∈ rescaleScores scores, 0 ≤ y ∧ y ≤ 1) ∧
    (∀ c : ℚ, (∀ x ∈ scores, x = c) → ∀ y ∈ rescaleScores scores, y = 1) := by
  unfold rescaleScores
  split_ifs with heq
  · constructor
    · intro y hy
      rw [List.mem_map] at hy
      obtain ⟨x, _, hxy⟩ := hy
      rw [← hxy]
      exact ⟨zero_le_one, le_refl 1⟩
    · intro c _ y hy
      rw [List.mem_map] at hy
      obtain ⟨x, _, hxy⟩ := hy
      exact hxy.symm
  · have hne : scores ≠ [] := by
      intro h
      subst h
      exact heq rfl
    have hmn : scores.foldl min (scores.headD 0) ≤ scores.headD 0 :=
      foldl_min_le_init scores (scores.headD 0)
    have hmx : scores.headD 0 ≤ scores.foldl max (scores.headD 0) :=
      init_le_foldl_max scores (scores.headD 0)
    have hlt : scores.foldl min (scores.headD 0) < scores.foldl max (scores.headD 0) :=
      lt_of_le_of_ne (le_trans hmn hmx) (fun h => heq h.symm)
    have hpos : 0 < scores.foldl max (scores.headD 0) - scores.foldl min (scores.headD 0) := by
      linarith
    constructor
    · intro y hy
      rw [List.mem_map] at hy
      obtain ⟨x, hx, hxy⟩ := hy
      have h1 : scores.foldl min (scores.headD 0) ≤ x := foldl_min_le_mem scores _ x hx
      have h2 : x ≤ scores.foldl max (scores.headD 0) := mem_le_foldl_max scores _ x hx
      rw [← hxy]
      constructor
      · exact div_nonneg (by linarith) (le_of_lt hpos)
      · rw [div_le_one hpos]
        linarith
    · intro c hall y hy
      exfalso
      apply heq
      obtain ⟨z, rest, hz⟩ := List.exists_cons_of_ne_nil hne
      have hhead : scores.headD 0 = c := by
        rw [hz]
        exact hall z (by rw [hz]; exact List.mem_cons_self z rest)
      have hminc : scores.foldl min (scores.headD 0) = c :=
        le_antisymm (by rw [← hhead] at *; exact hmn)
          (le_foldl_min scores (scores.headD 0) c (le_of_eq hhead.symm)
            (fun x hx => le_of_eq (hall x hx).symm))
      have hmaxc : scores.foldl max (scores.headD 0) = c :=
        le_antisymm
          (foldl_max_le scores (scores.headD 0) c (le_of_eq hhead)
            (fun x hx => le_of_eq (hall x hx)))
          (by rw [← hhead] at *; exact hmx)
      rw [hminc, hmaxc]

/-- C7 witness: on the all-equal batch of three raw scores 5 the first
rescaled score is exactly 1. -/
theorem rescale_bounds_and_equal_case_witness :
    (rescaleScores [5, 5, 5]).getD 0 0 = 1 :=
  (rescale_bounds_and_equal_case [5, 5, 5]).2 5 (by decide) _ (by norm_num [rescaleScores])

/-- C1: in every run of the selection core, the list of accepted feature
vectors is pairwise non-redundant — for every pair of distinct accepted
candidates, the real cosine similarity of their feature vectors is at most
the redundancy threshold 0.70 — because a candidate is accepted only while
it is not more similar than the threshold to every previously accepted
vector, and the similarity is symmetric. -/
theorem accepted_pairwise_similarity_le (features : List Vec) (ranked : List Nat) (k : Nat) :
    List.Pairwise
      (fun u v => ((dotProd u v : ℚ) : ℝ) /
          (Real.sqrt ((dotProd u u : ℚ) : ℝ) * Real.sqrt ((dotProd v v : ℚ) : ℝ)) ≤
        (7 : ℝ) / 10)
      (selectGreedy features ranked k (7 / 10)).selectedVectors := by
  have hp := pairwise_foldl_selectStep features k (7 / 10) ranked (SelState.mk [] [])
    List.Pairwise.nil
  refine hp.imp ?_
  intro a b hab
  have h := (cosineSimGT_eq_false_iff a b (7 / 10) (by norm_num)).mp hab
  have hc : (((7 : ℚ) / 10 : ℚ) : ℝ) = (7 : ℝ) / 10 := by
    push_cast
    ring
  rw [hc] at h
  exact h

/-- C5: the returned summary never has more sentences than the requested
size, and — whenever the oracle returns one score per valid sentence, as the
classifier does — never more than the number of sentences that passed the
filter; diagnostic outcomes carry zero sentences. -/
theorem summary_size_bounds (modelLoaded vectorizerLoaded : Bool) (oracle : ScoringOracle)
    (cs : List String) (k : Nat)
    (hlen : ∀ feats scores, oracle.transform (validFilter cs) = Except.ok feats →
      oracle.predictProba feats = Except.ok scores → scores.length = (validFilter cs).length) :
    (summarySentences
        (generateSupervisedSummary modelLoaded vectorizerLoaded oracle cs k)).length ≤ k ∧
    (summarySentences
        (generateSupervisedSummary modelLoaded vectorizerLoaded oracle cs k)).length ≤
      (validFilter cs).length := by
  cases hmv : (modelLoaded && vectorizerLoaded) with
  | false =>
    rw [generate_not_loaded modelLoaded vectorizerLoaded oracle cs k hmv]
    exact ⟨Nat.zero_le k, Nat.zero_le _⟩
  | true =>
    obtain ⟨hm, hv⟩ := Bool.and_eq_true modelLoaded vectorizerLoaded |>.mp hmv
    subst hm
    subst hv
    by_cases hval : validFilter cs = []
    · rw [generate_no_valid oracle cs k hval]
      exact ⟨Nat.zero_le k, Nat.zero_le _⟩
    · cases htr : oracle.transform (validFilter cs) with
      | error e =>
        rw [generate_transform_error oracle cs k e hval htr]
        exact ⟨Nat.zero_le k, Nat.zero_le _⟩
      | ok feats =>
        cases hpr : oracle.predictProba feats with
        | error e =>
          rw [generate_predict_error oracle cs k feats e hval htr hpr]
          exact ⟨Nat.zero_le k, Nat.zero_le _⟩
        | ok scores =>
          rw [generate_run_eq oracle cs k feats scores hval htr hpr]
          simp only [summarySentences, List.length_map, List.length_insertionSort]
          constructor
          · exact length_foldl_selectStep_le feats k (7 / 10) (rankedIndices scores)
              (SelState.mk [] []) (Nat.zero_le k)

          · have h1 : (selectGreedy feats (rankedIndices scores) k (7 / 10)).selectedIndices.length ≤
                (SelState.mk [] []).selectedIndices.length + (rankedIndices scores).length :=
              length_foldl_selectStep_le_add feats k (7 / 10) (rankedIndices scores)
                (SelState.mk [] [])
            have h2 := length_rankedIndices scores
            have h3 := hlen feats scores htr hpr
            simp only [List.length_nil] at h1
            omega

/-- C5 witness: a concrete one-sentence run with requested size 3 stays
within both bounds. -/
theorem summary_size_bounds_witness :
    (summarySentences
        (generateSupervisedSummary true true (constOracle [[1, 0, 0]] [1]) [sentA] 3)).length ≤ 3 ∧
    (summarySentences
        (generateSupervisedSummary true true (constOracle [[1, 0, 0]] [1]) [sentA] 3)).length ≤
      (validFilter [sentA]).length :=
  summary_size_bounds true true (constOracle [[1, 0, 0]] [1]) [sentA] 3
    (fun feats scores hf hs => by
      cases hf
      cases hs
      decide)

/-- C10: when both artifacts are loaded, both oracle calls succeed with one
score per valid sentence, the requested size is at least one and at least one
sentence passed the filter, the returned summary is nonempty: the redundancy
check is vacuous for the first ranked candidate because the accepted-vector
list is still empty, so the top-ranked candidate is always accepted. -/
theorem nonempty_summary (oracle : ScoringOracle) (cs : List String) (k : Nat)
    (feats : List Vec) (scores : List ℚ)
    (hk : 1 ≤ k) (hval : validFilter cs ≠ [])
    (htr : oracle.transform (validFilter cs) = Except.ok feats)
    (hpr : oracle.predictProba feats = Except.ok scores)
    (hlen : scores.length = (validFilter cs).length) :
    summarySentences (generateSupervisedSummary true true oracle cs k) ≠ [] := by
  rw [generate_run_eq oracle cs k feats scores hval htr hpr]
  simp only [summarySentences]
  have hrank : rankedIndices scores ≠ [] := by
    intro h
    have hlr := length_rankedIndices scores
    rw [h] at hlr
    simp only [List.length_nil] at hlr
    have hvpos : 0 < (validFilter cs).length := List.length_pos.mpr hval
    omega
  obtain ⟨r, rest, hr⟩ := List.exists_cons_of_ne_nil hrank
  have hstep : selectStep feats k (7 / 10) (SelState.mk [] []) r =
      SelState.mk [r] [feats.getD r []] := by
    unfold selectStep
    rw [if_neg (by simp only [List.length_nil]; omega),
      if_neg (by simp [isRedundant])]
    rfl
  have hmem : r ∈ (selectGreedy feats (rankedIndices scores) k (7 / 10)).selectedIndices := by
    unfold selectGreedy
    rw [hr, List.foldl_cons, hstep]
    exact mem_foldl_selectStep_of_mem feats k (7 / 10) rest
      (SelState.mk [r] [feats.getD r []]) r (List.mem_singleton_self r)
  intro hcontra
  rw [List.map_eq_nil_iff] at hcontra
  have hperm := List.perm_insertionSort (fun i j => i ≤ j)
    (selectGreedy feats (rankedIndices scores) k (7 / 10)).selectedIndices
  rw [hcontra] at hperm
  have hnil := hperm.symm.eq_nil
  rw [hnil] at hmem
  exact absurd hmem (List.not_mem_nil r)

/-- C10 witness: a concrete run with one valid sentence and requested size
one returns a nonempty summary. -/
theorem nonempty_summary_witness :
    summarySentences
      (generateSupervisedSummary true true (constOracle [[1, 0, 0]] [1]) [sentA] 1) ≠ [] :=
  nonempty_summary (constOracle [[1, 0, 0]] [1]) [sentA] 1 [[1, 0, 0]] [1]
    (le_refl 1) (by decide) rfl rfl (by decide)

/-- C6: every successful run returns exactly the map, over the accepted
index list re-sorted ascending by original document position, of the valid
sentence at each position; the re-sorted list is sorted ascending and is a
permutation of the accepted set, so the output order matches the relative
original-document order of the selected sentences regardless of the score
ranking. -/
theorem summary_in_original_order (oracle : ScoringOracle) (cs : List String) (k : Nat)
    (feats : List Vec) (scores : List ℚ)
    (hval : validFilter cs ≠ [])
    (htr : oracle.transform (validFilter cs) = Except.ok feats)
    (hpr : oracle.predictProba feats = Except.ok scores) :
    generateSupervisedSummary true true oracle cs k =
      SummaryResult.summary
        ((List.insertionSort (fun i j => i ≤ j)
            (selectGreedy feats (rankedIndices scores) k (7 / 10)).selectedIndices).map
          (fun i => (validFilter cs).getD i (String.mk []))) ∧
    List.Sorted (fun i j => i ≤ j)
      (List.insertionSort (fun i j => i ≤ j)
        (selectGreedy feats (rankedIndices scores) k (7 / 10)).selectedIndices) ∧
    (List.insertionSort (fun i j => i ≤ j)
        (selectGreedy feats (rankedIndices scores) k (7 / 10)).selectedIndices).Perm
      (selectGreedy feats (rankedIndices scores) k (7 / 10)).selectedIndices := by
  refine ⟨generate_run_eq oracle cs k feats scores hval htr hpr, ?_,
    List.perm_insertionSort (fun i j => i ≤ j) _⟩
  haveI h1 : IsTotal Nat (fun i j => i ≤ j) := ⟨Nat.le_total⟩
  haveI h2 : IsTrans Nat (fun i j => i ≤ j) := ⟨fun a b c => Nat.le_trans⟩
  exact List.sorted_insertionSort (fun i j => i ≤ j)
    (selectGreedy feats (rankedIndices scores) k (7 / 10)).selectedIndices

/-- C6 witness: the order-restoration facts instantiated on a concrete
one-sentence run. -/
theorem summary_in_original_order_witness :
    generateSupervisedSummary true true (constOracle [[1, 0, 0]] [1]) [sentA] 2 =
      SummaryResult.summary
        ((List.insertionSort (fun i j => i ≤ j)
            (selectGreedy [[1, 0, 0]] (rankedIndices [1]) 2 (7 / 10)).selectedIndices).map
          (fun i => (validFilter [sentA]).getD i (String.mk []))) ∧
    List.Sorted (fun i j => i ≤ j)
      (List.insertionSort (fun i j => i ≤ j)
        (selectGreedy [[1, 0, 0]] (rankedIndices [1]) 2 (7 / 10)).selectedIndices) ∧
    (List.insertionSort (fun i j => i ≤ j)
        (selectGreedy [[1, 0, 0]] (rankedIndices [1]) 2 (7 / 10)).selectedIndices).Perm
      (selectGreedy [[1, 0, 0]] (rankedIndices [1]) 2 (7 / 10)).selectedIndices :=
  summary_in_original_order (constOracle [[1, 0, 0]] [1]) [sentA] 2 [[1, 0, 0]] [1]
    (by decide) rfl rfl

/-- C2 counterexample: three mutually orthogonal (hence non-redundant)
candidates with equal scores 0.9 and requested size 2 do not yield the first
two sentences: the ascending argsort keeps ties in input order and the
reversal of line 736 then visits them in reversed input order, so the claimed
output, the first two sentences, is not produced. -/
theorem tie_break_counterexample :
    generateSupervisedSummary true true
        (constOracle [[1, 0, 0], [0, 1, 0], [0, 0, 1]] [9 / 10, 9 / 10, 9 / 10])
        [sentA, sentB, sentC] 2 ≠
      SummaryResult.summary [sentA, sentB] := by
  rw [generate_run_eq (constOracle [[1, 0, 0], [0, 1, 0], [0, 0, 1]] [9 / 10, 9 / 10, 9 / 10])
    [sentA, sentB, sentC] 2 [[1, 0, 0], [0, 1, 0], [0, 0, 1]] [9 / 10, 9 / 10, 9 / 10]
    (by decide) rfl rfl]
  norm_num [rankedIndices, argsortAsc, selectGreedy, selectStep, isRedundant, cosineSimGT,
    dotProd, validFilter, List.range_succ, sentA, sentB, sentC]
  decide

/-- C2 amended: ranking is by score descending (true under any tie order),
but the tie-break is not stable-preserving: the code reverses an ascending
argsort, and on the concrete three-element batch [0.9, 0.9, 0.9] — small
enough that numpy argsort is its deterministic, input-order-preserving
insertion sort — the ranked order is [2, 1, 0], so with three mutually
non-redundant candidates and requested size 2 the last two candidates in
original-index order are selected (and then re-sorted into document order).
For batches beyond the 16-element insertion-sort regime the program fixes no
tie order. -/
theorem ranking_descending_ties_reversed :
    (∀ scores : List ℚ,
      List.Sorted (fun i j => scores.getD j 0 ≤ scores.getD i 0) (rankedIndices scores)) ∧
    rankedIndices [9 / 10, 9 / 10, 9 / 10] = [2, 1, 0] ∧
    generateSupervisedSummary true true
        (constOracle [[1, 0, 0], [0, 1, 0], [0, 0, 1]] [9 / 10, 9 / 10, 9 / 10])
        [sentA, sentB, sentC] 2 =
      SummaryResult.summary [sentB, sentC] := by
  refine ⟨rankedIndices_sorted_desc, by norm_num [rankedIndices, argsortAsc, List.range_succ], ?_⟩
  rw [generate_run_eq (constOracle [[1, 0, 0], [0, 1, 0], [0, 0, 1]] [9 / 10, 9 / 10, 9 / 10])
    [sentA, sentB, sentC] 2 [[1, 0, 0], [0, 1, 0], [0, 0, 1]] [9 / 10, 9 / 10, 9 / 10]
    (by decide) rfl rfl]
  norm_num [rankedIndices, argsortAsc, selectGreedy, selectStep, isRedundant, cosineSimGT,
    dotProd, validFilter, List.range_succ, sentA, sentB, sentC]

/-- C3 counterexample: a run with the default threshold accepts a second
candidate whose real cosine similarity to the first accepted vector equals
2/3, which strictly exceeds 0.65; had the threshold been 0.65 the candidate
would have been rejected, so the implemented default is not 0.65. -/
theorem threshold_counterexample :
    generateSupervisedSummary true true (constOracle [[1, 0, 0], [10, 11, 2]] [1, 1 / 2])
        [sentA, sentB] 5 =
      SummaryResult.summary [sentA, sentB] ∧
    (13 : ℝ) / 20 < ((dotProd [1, 0, 0] [10, 11, 2] : ℚ) : ℝ) /
      (Real.sqrt ((dotProd [1, 0, 0] [1, 0, 0] : ℚ) : ℝ) *
        Real.sqrt ((dotProd [10, 11, 2] [10, 11, 2] : ℚ) : ℝ)) := by
  constructor
  · rw [generate_run_eq (constOracle [[1, 0, 0], [10, 11, 2]] [1, 1 / 2]) [sentA, sentB] 5
      [[1, 0, 0], [10, 11, 2]] [1, 1 / 2] (by decide) rfl rfl]
    norm_num [rankedIndices, argsortAsc, selectGreedy, selectStep, isRedundant, cosineSimGT,
      dotProd, validFilter, List.range_succ, sentA, sentB]
  · have h1 : (dotProd [1, 0, 0] [10, 11, 2] : ℚ) = 10 := by norm_num [dotProd]
    have h2 : (dotProd [1, 0, 0] [1, 0, 0] : ℚ) = 1 := by norm_num [dotProd]
    have h3 : (dotProd [10, 11, 2] [10, 11, 2] : ℚ) = 225 := by norm_num [dotProd]
    rw [h1, h2, h3]
    have hs1 : Real.sqrt ((1 : ℚ) : ℝ) = 1 := by
      rw [Rat.cast_one, Real.sqrt_one]
    have hs3 : Real.sqrt ((225 : ℚ) : ℝ) = 15 := by
      have hcast : ((225 : ℚ) : ℝ) = (15 : ℝ) ^ 2 := by norm_num
      rw [hcast, Real.sqrt_sq (by norm_num : (0 : ℝ) ≤ 15)]
    rw [hs1, hs3]
    norm_num

/-- C3 amended: the redundancy threshold the source hardcodes is 0.70, not
0.65; the redundancy test fires exactly when some previously accepted vector
is strictly more similar than 0.70 (so a similarity of exactly 0.70, as
between the vectors (0,5,5) and (5,4,3), is still accepted); and a candidate
ends up accepted exactly when, at its single examination in ranked order, the
accepted set was below the requested size and the test did not fire — hence a
rejected candidate is never reconsidered. -/
theorem selection_threshold_and_permanence (features : List Vec) (ranked : List Nat)
    (k idx : Nat) (vs : List Vec) (v : Vec) :
    (isRedundant vs v (7 / 10) = true ↔
      ∃ w ∈ vs, (7 : ℝ) / 10 < ((dotProd v w : ℚ) : ℝ) /
        (Real.sqrt ((dotProd v v : ℚ) : ℝ) * Real.sqrt ((dotProd w w : ℚ) : ℝ))) ∧
    (idx ∈ (selectGreedy features ranked k (7 / 10)).selectedIndices ↔
      ∃ p s, ranked = p ++ idx :: s ∧
        (selectGreedy features p k (7 / 10)).selectedIndices.length < k ∧
        isRedundant ((selectGreedy features p k (7 / 10)).selectedVectors)
          (features.getD idx []) (7 / 10) = false) ∧
    (isRedundant [[5, 4, 3]] ([0, 5, 5] : Vec) (7 / 10) = false ∧
      ((dotProd [0, 5, 5] [5, 4, 3] : ℚ) : ℝ) /
        (Real.sqrt ((dotProd [0, 5, 5] [0, 5, 5] : ℚ) : ℝ) *
          Real.sqrt ((dotProd [5, 4, 3] [5, 4, 3] : ℚ) : ℝ)) = (7 : ℝ) / 10) := by
  refine ⟨?_, ?_, ?_, ?_⟩
  · rw [isRedundant_iff vs v (7 / 10) (by norm_num)]
    have hc : (((7 : ℚ) / 10 : ℚ) : ℝ) = (7 : ℝ) / 10 := by
      push_cast
      ring
    rw [hc]
  · have h := mem_foldl_selectStep features k (7 / 10) ranked (SelState.mk [] []) idx
    simpa [selectGreedy] using h
  · norm_num [isRedundant, cosineSimGT, dotProd]
  · have h1 : (dotProd [0, 5, 5] [5, 4, 3] : ℚ) = 35 := by norm_num [dotProd]
    have h2 : (dotProd [0, 5, 5] [0, 5, 5] : ℚ) = 50 := by norm_num [dotProd]
    have h3 : (dotProd [5, 4, 3] [5, 4, 3] : ℚ) = 50 := by norm_num [dotProd]
    rw [h1, h2, h3]
    have hcast : ((50 : ℚ) : ℝ) = (50 : ℝ) := by norm_num
    rw [hcast, Real.mul_self_sqrt (by norm_num : (0 : ℝ) ≤ 50)]
    norm_num
